import Mathlib

/-!
Verification of the expense-tracker web client core.

Shallow embedding of the shared client-side core of the expense-tracker
monorepo: amount sanitization (src/web/src/utils/number.ts), date/time
helpers (src/web/src/utils/datetime.ts), form validation
(ExpenseForm.tsx / IncomeForm.tsx), tag normalization on submit,
category sorting (useCategories.ts) and the data-fetching hooks
(useExpenses.ts / useIncomes.ts / useCategories.ts).

Strings are modelled as `List Char`; JavaScript `null`/`undefined`
arguments are modelled with `Option`.
-/

/-- Whitespace predicate used to model the JavaScript string trim. -/
def isWs (c : Char) : Bool := c.isWhitespace

/-- Model of JavaScript String.prototype.trim: drop whitespace from both
ends (drop from the front, reverse, drop from the front, reverse). -/
def jsTrim (s : List Char) : List Char :=
  ((s.dropWhile isWs).reverse.dropWhile isWs).reverse

/-- Characters kept by the regex replace [^0-9.] in sanitizeDecimal
(src/web/src/utils/number.ts line 248). -/
def isAllowedAmountChar (c : Char) : Bool := c.isDigit || c == '.'

/-- Model of the regex replace of leading zeros followed by a digit,
whole.replace of the pattern zero-run-lookahead-digit with the empty
string (src/web/src/utils/number.ts line 255): drop leading zeros as
long as a digit still follows. -/
def headIsDigit : List Char → Bool
  | r :: _ => r.isDigit
  | [] => false

def stripLeadingZeros : List Char → List Char
  | [] => []
  | c :: rest =>
    if c = '0' && headIsDigit rest
    then stripLeadingZeros rest
    else c :: rest

/-- allowed = trimmed.replace(non-digit-non-dot, empty)
(src/web/src/utils/number.ts line 248). -/
def allowedOf (trimmed : List Char) : List Char :=
  trimmed.filter isAllowedAmountChar

/-- whole: the segment of allowed before its first dot
(the first component of allowed.split on the dot, line 253). -/
def wholeOf (trimmed : List Char) : List Char :=
  (allowedOf trimmed).takeWhile (fun c => c ≠ '.')

/-- decimals = rest.join(empty).slice(0, 2): the characters of allowed
after its first dot, with the remaining dots removed, truncated to two
characters (src/web/src/utils/number.ts line 254). -/
def decimalsOf (trimmed : List Char) : List Char :=
  (((((allowedOf trimmed).dropWhile (fun c => c ≠ '.')).drop 1).filter
    (fun c => c ≠ '.')).take 2)

/-- safeWhole = normalizedWhole or (decimals nonempty, the digit zero,
else whole) (src/web/src/utils/number.ts line 256). -/
def safeWholeOf (trimmed : List Char) : List Char :=
  if stripLeadingZeros (wholeOf trimmed) ≠ [] then
    stripLeadingZeros (wholeOf trimmed)
  else if decimalsOf trimmed ≠ [] then ['0']
  else wholeOf trimmed

/-- The body of sanitizeDecimal after sign handling: returns the empty
list both for the early return on empty allowed and for the final empty
sanitized string (the caller maps both to the empty string). -/
def sanitizeCore (trimmed : List Char) : List Char :=
  if allowedOf trimmed = [] then []
  else if decimalsOf trimmed ≠ [] then
    safeWholeOf trimmed ++ '.' :: decimalsOf trimmed
  else safeWholeOf trimmed

/-- Model of sanitizeDecimal (src/web/src/utils/number.ts lines 237-264):
empty input returns empty; the input is trimmed; when allowNegative is
set a leading minus is remembered and removed; non-digit non-dot
characters are dropped; the whole part loses leading zeros (kept as a
single zero when a fractional part exists); the fractional part is the
text after the first dot, dots removed, truncated to two characters. -/
def sanitizeDecimal (value : List Char) (allowNegative : Bool) : List Char :=
  if value = [] then []
  else
    let trimmed0 := jsTrim value
    let isNegative := allowNegative && trimmed0.head? = some '-'
    let trimmed := if isNegative then trimmed0.drop 1 else trimmed0
    let sanitized := sanitizeCore trimmed
    if sanitized = [] then []
    else if isNegative then '-' :: sanitized else sanitized

/-- sanitizeAmountInput (src/web/src/utils/number.ts line 266):
sanitizeDecimal with allowNegative false. -/
def sanitizeAmountInput (raw : List Char) : List Char :=
  sanitizeDecimal raw false

/-- Model of the JavaScript string comparison a < b (lexicographic by
code unit), used by isFutureDate through dateValue > today. -/
def jsStringLt : List Char → List Char → Bool
  | [], [] => false
  | [], _ :: _ => true
  | _ :: _, [] => false
  | a :: s, b :: t =>
    if a.toNat < b.toNat then true
    else if b.toNat < a.toNat then false
    else jsStringLt s t

/-- isFutureDate (src/web/src/utils/datetime.ts lines 192-197): a falsy
(absent or empty) date is never future; otherwise the date-only string
is compared against the current date-only string getTodayIsoDate, which
is passed here as the parameter today. -/
def isFutureDate (dateValue : Option (List Char)) (today : List Char) : Bool :=
  match dateValue with
  | none => false
  | some d => if d = [] then false else jsStringLt today d

/-- An ISO-like instant split into its date part (YYYY-MM-DD) and its
time-of-day part, ordered lexicographically. -/
structure Instant where
  date : List Char
  time : List Char
  deriving DecidableEq

/-- Strict order on instants: earlier date, or same date and earlier
time (for ISO-formatted fields this is chronological order). -/
def instLt (a b : Instant) : Bool :=
  jsStringLt a.date b.date || (a.date == b.date && jsStringLt a.time b.time)

/-- toDate (src/web/src/utils/datetime.ts lines 153-159): falsy input
gives null, otherwise the result of the Date constructor, null when the
parse is NaN. The Date parser (a JS builtin) is the parameter parse,
returning the instant in epoch milliseconds or none for NaN. -/
def toDate (parse : List Char → Option Int) (value : Option (List Char)) :
    Option Int :=
  match value with
  | none => none
  | some v => if v = [] then none else parse v

/-- toIsoString (src/web/src/utils/datetime.ts lines 199-202): render
toDate of the input, falling back to the current instant now; isoOf is
the Date.prototype.toISOString builtin. -/
def toIsoString (parse : List Char → Option Int) (isoOf : Int → List Char)
    (now : Int) (localValue : Option (List Char)) : List Char :=
  match toDate parse localValue with
  | some d => isoOf d
  | none => isoOf now

/-- The safeTime expression of combineDateAndTime
(src/web/src/utils/datetime.ts line 208): a missing or blank time
defaults to 00:00. -/
def safeTimeOf (time : Option (List Char)) : List Char :=
  match time with
  | some t => if jsTrim t ≠ [] then t else "00:00".toList
  | none => "00:00".toList

/-- combineDateAndTime (src/web/src/utils/datetime.ts lines 204-212):
empty date falls back to now; otherwise date T safeTime is parsed and
rendered, falling back to now when the parse is NaN. -/
def combineDateAndTime (parse : List Char → Option Int)
    (isoOf : Int → List Char) (now : Int) (date : List Char)
    (time : Option (List Char)) : List Char :=
  if date = [] then isoOf now
  else
    match parse (date ++ 'T' :: safeTimeOf time) with
    | some d => isoOf d
    | none => isoOf now

/-- A JavaScript number that is not NaN: finite (modelled exactly as a
scaled decimal, the value num over ten to the scale) or an infinity. -/
inductive JsNum where
  | fin (num : Int) (scale : Nat)
  | posInf
  | negInf
  deriving DecidableEq

/-- Value of a digit string read in base 10. -/
def digitsToNat (l : List Char) : Nat :=
  l.foldl (fun n c => 10 * n + (c.toNat - 48)) 0

/-- Unsigned decimal literal as accepted by the JS Number conversion:
digits, digits dot digits, digits dot, or dot digits (exponent and hex
forms of the builtin grammar are not needed by the program and are
omitted from the model). The result is the pair of the integer read
ignoring the dot and the number of digits after the dot. -/
def parseDecimalLiteral (u : List Char) : Option (Nat × Nat) :=
  let ip := u.takeWhile Char.isDigit
  let rest := u.dropWhile Char.isDigit
  match rest with
  | [] => if ip.isEmpty then none else some (digitsToNat ip, 0)
  | '.' :: fr =>
    if fr.all Char.isDigit && (!ip.isEmpty || !fr.isEmpty) then
      some (digitsToNat ip * 10 ^ fr.length + digitsToNat fr, fr.length)
    else none
  | _ => none

/-- Sign applied to an unsigned body: the Infinity literal or a decimal
literal; anything else is NaN. -/
def jsNumberSigned (neg : Bool) (u : List Char) : Option JsNum :=
  if u = "Infinity".toList then some (if neg then JsNum.negInf else JsNum.posInf)
  else
    match parseDecimalLiteral u with
    | some x =>
      some (JsNum.fin (if neg then -(x.1 : Int) else (x.1 : Int)) x.2)
    | none => none

/-- Model of the JS Number conversion on strings: whitespace-trimmed;
the empty string is 0; an optional sign precedes the body; none is NaN. -/
def jsNumber (s : List Char) : Option JsNum :=
  match jsTrim s with
  | [] => some (JsNum.fin 0 0)
  | '-' :: r => jsNumberSigned true r
  | '+' :: r => jsNumberSigned false r
  | t => jsNumberSigned false t

/-- The test amountValue <= 0 on a non-NaN JS number: the sign of the
scaled decimal is the sign of its integer part since ten to the scale
is positive. -/
def jsNumLeZero : JsNum → Bool
  | JsNum.fin num _ => decide (num ≤ 0)
  | JsNum.posInf => false
  | JsNum.negInf => true

/-- ExpenseFormState (src/web/src/components/ExpenseForm.tsx lines
38-49). -/
structure ExpenseFormState where
  amount : List Char
  currency : List Char
  category : List Char
  payment_method : List Char
  incurred_date : List Char
  incurred_time : List Char
  description : List Char
  merchant : List Char
  tags : List Char
  receipt_image_path : List Char
  deriving DecidableEq

/-- ExpenseFormErrors (src/web/src/components/ExpenseForm.tsx lines
53-55): one optional message per validated field. -/
structure ExpenseFormErrors where
  amount : Option (List Char)
  category : Option (List Char)
  payment_method : Option (List Char)
  incurred_date : Option (List Char)
  deriving DecidableEq

/-- validateExpense (src/web/src/components/ExpenseForm.tsx lines
62-89); today is the current date-only string used by isFutureDate.
Returns the errors record and the hasFutureDateError flag. -/
def validateExpense (today : List Char) (st : ExpenseFormState) :
    ExpenseFormErrors × Bool :=
  let amountErr :=
    if jsTrim st.amount = [] then some "Amount is required.".toList
    else
      match jsNumber st.amount with
      | none => some "Enter a positive amount.".toList
      | some v =>
        if jsNumLeZero v then some "Enter a positive amount.".toList else none
  let categoryErr :=
    if jsTrim st.category = [] then some "Select or create a category.".toList
    else none
  let paymentErr :=
    if jsTrim st.payment_method = [] then some "Choose a payment method.".toList
    else none
  let dateErr :=
    if st.incurred_date = [] then some "Date is required.".toList
    else if isFutureDate (some st.incurred_date) today then
      some "Incurred date cannot be in the future.".toList
    else none
  let hasFut :=
    st.incurred_date ≠ [] && isFutureDate (some st.incurred_date) today
  (⟨amountErr, categoryErr, paymentErr, dateErr⟩, hasFut)

/-- isFormValid for the expense form: Object.keys(errors).length is 0
(src/web/src/components/ExpenseForm.tsx line 161). -/
def expenseFormValid (e : ExpenseFormErrors) : Bool :=
  e.amount.isNone && e.category.isNone && e.payment_method.isNone &&
    e.incurred_date.isNone

/-- IncomeFormState (src/web/src/components/IncomeForm.tsx lines
35-45). -/
structure IncomeFormState where
  amount : List Char
  currency : List Char
  source : List Char
  received_method : List Char
  received_date : List Char
  received_time : List Char
  description : List Char
  tags : List Char
  attachment_path : List Char
  deriving DecidableEq

/-- IncomeFormErrors (src/web/src/components/IncomeForm.tsx lines
49-51). -/
structure IncomeFormErrors where
  amount : Option (List Char)
  source : Option (List Char)
  received_method : Option (List Char)
  received_date : Option (List Char)
  deriving DecidableEq

/-- validateIncome (src/web/src/components/IncomeForm.tsx lines
58-85). -/
def validateIncome (today : List Char) (st : IncomeFormState) :
    IncomeFormErrors × Bool :=
  let amountErr :=
    if jsTrim st.amount = [] then some "Amount is required.".toList
    else
      match jsNumber st.amount with
      | none => some "Enter a positive amount.".toList
      | some v =>
        if jsNumLeZero v then some "Enter a positive amount.".toList else none
  let sourceErr :=
    if jsTrim st.source = [] then some "Source is required.".toList else none
  let methodErr :=
    if jsTrim st.received_method = [] then
      some "Choose a received method.".toList
    else none
  let dateErr :=
    if st.received_date = [] then some "Date is required.".toList
    else if isFutureDate (some st.received_date) today then
      some "Received date cannot be in the future.".toList
    else none
  let hasFut :=
    st.received_date ≠ [] && isFutureDate (some st.received_date) today
  (⟨amountErr, sourceErr, methodErr, dateErr⟩, hasFut)

/-- isFormValid for the income form (src/web/src/components/IncomeForm.tsx
line 146). -/
def incomeFormValid (e : IncomeFormErrors) : Bool :=
  e.amount.isNone && e.source.isNone && e.received_method.isNone &&
    e.received_date.isNone

/-- Model of the JS String.prototype.split with a one-character
separator: the list of (possibly empty) segments between separators. -/
def splitOnChar (sep : Char) : List Char → List (List Char)
  | [] => [[]]
  | c :: rest =>
    match splitOnChar sep rest with
    | [] => [[c]]
    | s :: ss => if c = sep then [] :: s :: ss else (c :: s) :: ss

/-- The tags field of the submitted payload (handleSubmit,
src/web/src/components/ExpenseForm.tsx lines 225-230 and
src/web/src/components/IncomeForm.tsx lines 209-214): an empty tags
string gives undefined; otherwise split on commas, trim each entry and
drop the empty ones. -/
def submittedTags (tags : List Char) : Option (List (List Char)) :=
  if tags = [] then none
  else some (((splitOnChar ',' tags).map jsTrim).filter (fun t => t ≠ []))

/-- Category (src/web/src/types.ts lines 1-4). -/
structure Category where
  id : List Char
  name : List Char
  deriving DecidableEq

/-- Lexicographic three-way comparison of strings by character code. -/
def compareStrings : List Char → List Char → Ordering
  | [], [] => Ordering.eq
  | [], _ :: _ => Ordering.lt
  | _ :: _, [] => Ordering.gt
  | a :: s, b :: t =>
    if a.toNat < b.toNat then Ordering.lt
    else if b.toNat < a.toNat then Ordering.gt
    else compareStrings s t

/-- Model of a.name.localeCompare(b.name, undefined, sensitivity base)
(src/web/src/hooks/useCategories.ts line 22): base sensitivity ignores
case, modelled as comparison of the lowercased strings. -/
def localeCompareBase (a b : List Char) : Int :=
  match compareStrings (a.map Char.toLower) (b.map Char.toLower) with
  | Ordering.lt => -1
  | Ordering.eq => 0
  | Ordering.gt => 1

/-- The comparator passed to sort in sortCategories. -/
def catCmp (a b : Category) : Int := localeCompareBase a.name b.name

/-- Stable insertion of x (earlier in the input) into an already sorted
list of later elements: x goes before the first y it does not compare
strictly greater than. -/
def sortInsert (c : α → α → Int) (x : α) : List α → List α
  | [] => [x]
  | y :: ys => if c x y ≤ 0 then x :: y :: ys else y :: sortInsert c x ys

/-- The ECMAScript Array.prototype.sort contract with a consistent
comparator: the stable sorted permutation of the input. -/
def stableSort (c : α → α → Int) : List α → List α
  | [] => []
  | x :: xs => sortInsert c x (stableSort c xs)

/-- sortCategories (src/web/src/hooks/useCategories.ts lines 21-22):
copy the array and sort it with the base-sensitivity name comparator. -/
def sortCategories (items : List Category) : List Category :=
  stableSort catCmp items

/-- The data carried by an API error as read by getApiErrorMessage:
response.data.error, response.data.details and the Error message. -/
structure ApiErr where
  responseError : Option (List Char)
  details : Option (List Char)
  message : List Char
  deriving DecidableEq

/-- getApiErrorMessage (src/web/src/utils/errors.ts lines 140-150,
AxiosError branch): response.data.error falling back to the error
message, with details appended after a colon when present. -/
def getApiErrorMessage (e : ApiErr) : List Char :=
  let m := match e.responseError with
    | some x => x
    | none => e.message
  match e.details with
  | some d => m ++ ':' :: ' ' :: d
  | none => m

/-- Expense (src/web/src/types.ts lines 6-18). -/
structure Expense where
  id : List Char
  amount : List Char
  currency : List Char
  category : List Char
  payment_method : List Char
  incurred_at : List Char
  recorded_at : List Char
  description : Option (List Char)
  merchant : Option (List Char)
  tags : List (List Char)
  receipt_image_path : Option (List Char)
  deriving DecidableEq

/-- Income (src/web/src/types.ts lines 20-31). -/
structure Income where
  id : List Char
  amount : List Char
  currency : List Char
  source : List Char
  received_method : List Char
  received_at : List Char
  recorded_at : List Char
  description : Option (List Char)
  tags : List (List Char)
  attachment_path : Option (List Char)
  deriving DecidableEq

/-- The state held by useExpenses and useIncomes that survives a call:
items, total and the error message (loading and submitting are set and
reset within every call and end where they started). -/
structure ListHookState (α : Type) where
  items : List α
  total : List Char
  error : Option (List Char)
  deriving DecidableEq

/-- The server's responses during one hook call: the outcome of the
POST, PUT and DELETE endpoints and of the GET list (items plus total). -/
structure ListHookServer (α : Type) where
  postResult : Except ApiErr Unit
  putResult : Except ApiErr Unit
  deleteResult : Except ApiErr Unit
  listResult : Except ApiErr (List α × List Char)

/-- refresh (src/web/src/hooks/useExpenses.ts lines 29-41, and the
identical useIncomes refresh): on success replace items and total with
the GET response and clear the error; on failure keep items and total
and record the message. -/
def hookRefresh (srv : ListHookServer α) (st : ListHookState α) :
    ListHookState α :=
  match srv.listResult with
  | Except.ok x => ⟨x.1, x.2, none⟩
  | Except.error e => { st with error := some (getApiErrorMessage e) }

/-- Common body of create, update and remove: issue the mutation; on
success await refresh then clear the error; on failure record the
message and re-throw (the second component is the thrown error). -/
def hookMutate (result : Except ApiErr Unit) (srv : ListHookServer α)
    (st : ListHookState α) : ListHookState α × Option ApiErr :=
  match result with
  | Except.ok _ => ({ hookRefresh srv st with error := none }, none)
  | Except.error e =>
    ({ st with error := some (getApiErrorMessage e) }, some e)

/-- useExpenses create (src/web/src/hooks/useExpenses.ts lines 47-62). -/
def expensesCreate (srv : ListHookServer Expense)
    (st : ListHookState Expense) : ListHookState Expense × Option ApiErr :=
  hookMutate srv.postResult srv st

/-- useExpenses update (src/web/src/hooks/useExpenses.ts lines 64-79). -/
def expensesUpdate (srv : ListHookServer Expense)
    (st : ListHookState Expense) : ListHookState Expense × Option ApiErr :=
  hookMutate srv.putResult srv st

/-- useExpenses remove (src/web/src/hooks/useExpenses.ts lines 81-96). -/
def expensesRemove (srv : ListHookServer Expense)
    (st : ListHookState Expense) : ListHookState Expense × Option ApiErr :=
  hookMutate srv.deleteResult srv st

/-- useIncomes create (hooks/useIncomes.ts, textually identical to the
expense hook). -/
def incomesCreate (srv : ListHookServer Income)
    (st : ListHookState Income) : ListHookState Income × Option ApiErr :=
  hookMutate srv.postResult srv st

/-- useIncomes update (hooks/useIncomes.ts). -/
def incomesUpdate (srv : ListHookServer Income)
    (st : ListHookState Income) : ListHookState Income × Option ApiErr :=
  hookMutate srv.putResult srv st

/-- useIncomes remove (hooks/useIncomes.ts). -/
def incomesRemove (srv : ListHookServer Income)
    (st : ListHookState Income) : ListHookState Income × Option ApiErr :=
  hookMutate srv.deleteResult srv st

/-- The persistent state of useCategories: items and error. -/
structure CatHookState where
  items : List Category
  error : Option (List Char)
  deriving DecidableEq

/-- Server responses for one useCategories call; POST and PUT answer
with the created or updated Category. -/
structure CatHookServer where
  postResult : Except ApiErr Category
  putResult : Except ApiErr Category
  deleteResult : Except ApiErr Unit
  listResult : Except ApiErr (List Category)

/-- useCategories refresh (src/web/src/hooks/useCategories.ts lines
30-41): replace items with the sorted GET response. -/
def categoriesRefresh (srv : CatHookServer) (st : CatHookState) :
    CatHookState :=
  match srv.listResult with
  | Except.ok l => ⟨sortCategories l, none⟩
  | Except.error e => { st with error := some (getApiErrorMessage e) }

/-- useCategories create (src/web/src/hooks/useCategories.ts lines
47-64): on success append the POST response to the held items and
re-sort, with no GET. -/
def categoriesCreate (srv : CatHookServer) (st : CatHookState) :
    CatHookState × Option ApiErr :=
  match srv.postResult with
  | Except.ok data => (⟨sortCategories (st.items ++ [data]), none⟩, none)
  | Except.error e =>
    ({ st with error := some (getApiErrorMessage e) }, some e)

/-- useCategories update (src/web/src/hooks/useCategories.ts lines
66-85): on success replace the matching item with the PUT response and
re-sort, with no GET. -/
def categoriesUpdate (id : List Char) (srv : CatHookServer)
    (st : CatHookState) : CatHookState × Option ApiErr :=
  match srv.putResult with
  | Except.ok data =>
    (⟨sortCategories (st.items.map fun item =>
        if item.id = id then data else item), none⟩, none)
  | Except.error e =>
    ({ st with error := some (getApiErrorMessage e) }, some e)

/-- useCategories remove (src/web/src/hooks/useCategories.ts lines
87-103): on success filter the deleted id out of the held items, with
no GET. -/
def categoriesRemove (id : List Char) (srv : CatHookServer)
    (st : CatHookState) : CatHookState × Option ApiErr :=
  match srv.deleteResult with
  | Except.ok _ =>
    (⟨st.items.filter (fun item => item.id ≠ id), none⟩, none)
  | Except.error e =>
    ({ st with error := some (getApiErrorMessage e) }, some e)

/-! ## Helper lemmas about the string utilities -/

theorem dropWhile_head_not {α} {p : α → Bool} :
    ∀ {l : List α} {c : α}, (l.dropWhile p).head? = some c → p c = false := by
  intro l
  induction l with
  | nil => intro c h; simp at h
  | cons a t ih =>
    intro c h
    rw [List.dropWhile_cons] at h
    split at h
    · exact ih h
    · next hp =>
      simp only [List.head?_cons, Option.some.injEq] at h
      subst h
      simpa using hp

theorem dropWhile_eq_self_of_head {α} {p : α → Bool} {l : List α} {c : α}
    (h : l.head? = some c) (hc : p c = false) : l.dropWhile p = l := by
  cases l with
  | nil => rfl
  | cons a t =>
    simp only [List.head?_cons, Option.some.injEq] at h
    subst h
    rw [List.dropWhile_cons, hc]
    simp

theorem getLast?_dropWhile_ne_nil {α} {p : α → Bool} :
    ∀ {l : List α}, l.dropWhile p ≠ [] →
      (l.dropWhile p).getLast? = l.getLast? := by
  intro l
  induction l with
  | nil => intro h; simp at h
  | cons a t ih =>
    intro h
    rw [List.dropWhile_cons] at h ⊢
    split
    · next hp =>
      rw [hp] at h
      simp only [if_true] at h
      cases t with
      | nil => simp [List.dropWhile] at h
      | cons b t2 =>
        rw [ih h, List.getLast?_cons_cons]
    · rfl

theorem jsTrim_idem (s : List Char) : jsTrim (jsTrim s) = jsTrim s := by
  by_cases h : jsTrim s = []
  · rw [h]; rfl
  · have hC : jsTrim s = ((s.dropWhile isWs).reverse.dropWhile isWs).reverse :=
      rfl
    have hCne : (s.dropWhile isWs).reverse.dropWhile isWs ≠ [] := by
      intro hc
      apply h
      rw [hC, hc]
      rfl
    obtain ⟨c, hc⟩ : ∃ c, (jsTrim s).head? = some c := by
      cases hx : (jsTrim s).head? with
      | none => exact absurd (List.head?_eq_none_iff.mp hx) h
      | some c => exact ⟨c, rfl⟩
    have hcu : ((s.dropWhile isWs).reverse.dropWhile isWs).getLast? = some c := by
      rw [← List.head?_reverse, ← hC]
      exact hc
    have hcB : (s.dropWhile isWs).head? = some c := by
      rw [← List.getLast?_reverse, ← getLast?_dropWhile_ne_nil hCne]
      exact hcu
    have hwsc : isWs c = false := dropWhile_head_not hcB
    have st1 : (jsTrim s).dropWhile isWs = jsTrim s :=
      dropWhile_eq_self_of_head hc hwsc
    have st2 : (jsTrim s).reverse = (s.dropWhile isWs).reverse.dropWhile isWs := by
      rw [hC, List.reverse_reverse]
    show (((jsTrim s).dropWhile isWs).reverse.dropWhile isWs).reverse = jsTrim s
    rw [st1, st2, List.dropWhile_idempotent, ← hC]

theorem jsTrim_of_not_ws {l : List Char} (h : ∀ c ∈ l, isWs c = false) :
    jsTrim l = l := by
  have h1 : l.dropWhile isWs = l := by
    cases l with
    | nil => rfl
    | cons a t =>
      exact dropWhile_eq_self_of_head rfl (h a (List.mem_cons_self a t))
  have h2 : l.reverse.dropWhile isWs = l.reverse := by
    cases hr : l.reverse with
    | nil => rfl
    | cons a t =>
      refine dropWhile_eq_self_of_head rfl (h a ?_)
      rw [← List.mem_reverse, hr]
      exact List.mem_cons_self a t
  show ((l.dropWhile isWs).reverse.dropWhile isWs).reverse = l
  rw [h1, h2, List.reverse_reverse]

/-! ## C6: tag normalization on submit -/

/-- C6 counterexample: the submitted tags list for the input
"a, a" keeps both copies of the tag a, so the claim that any tag
occurring more than once appears only once fails on the code. -/
theorem submitted_tags_keep_duplicates_cex :
    submittedTags "a, a".toList = some ["a".toList, "a".toList] ∧
      ¬ List.Nodup ["a".toList, "a".toList] := by
  constructor
  · decide
  · decide

/-- C6 amended: for every nonempty comma-separated tags input the
submitted tags list is exactly the trimmed entries with the empty ones
dropped, in order and with duplicates preserved; every submitted tag is
nonempty and already trimmed. -/
theorem submitted_tags_trim_drop_empty (tags : List Char) (h : tags ≠ []) :
    ∃ l, submittedTags tags = some l ∧
      l = ((splitOnChar ',' tags).map jsTrim).filter (fun t => t ≠ []) ∧
      ∀ t ∈ l, t ≠ [] ∧ jsTrim t = t := by
  refine ⟨((splitOnChar ',' tags).map jsTrim).filter (fun t => t ≠ []),
    by simp [submittedTags, h], rfl, ?_⟩
  intro t ht
  have hne : t ≠ [] := by
    have := List.of_mem_filter ht
    simpa using this
  refine ⟨hne, ?_⟩
  have hmem : t ∈ (splitOnChar ',' tags).map jsTrim := List.mem_of_mem_filter ht
  obtain ⟨u, _, hu⟩ := List.mem_map.mp hmem
  rw [← hu, jsTrim_idem]

/-- C6 witness for the amended theorem at the input "a, a". -/
theorem submitted_tags_trim_drop_empty_witness :
    ∃ l, submittedTags "a, a".toList = some l ∧
      l = ((splitOnChar ',' "a, a".toList).map jsTrim).filter
        (fun t => t ≠ []) ∧
      ∀ t ∈ l, t ≠ [] ∧ jsTrim t = t :=
  submitted_tags_trim_drop_empty "a, a".toList (by decide)

/-! ## C3: the future-date check -/

/-- C3 counterexample: an instant strictly after now but on the same
calendar day (23:00 versus 10:00 on 2026-10-11) is not reported as a
future date, and the expense validator raises no date error for it, so
the claim that the check fails exactly when the instant is strictly
after now fails on the code. -/
theorem future_check_not_instant_granular_cex :
    instLt ⟨"2026-10-11".toList, "10:00".toList⟩
        ⟨"2026-10-11".toList, "23:00".toList⟩ = true ∧
      isFutureDate (some "2026-10-11".toList) "2026-10-11".toList = false ∧
      (validateExpense "2026-10-11".toList
        ⟨"5".toList, "USD".toList, "Food".toList, "cash".toList,
          "2026-10-11".toList, "23:00".toList, [], [], [], []⟩).1.incurred_date
        = none := by
  refine ⟨by decide, by decide, ?_⟩
  decide

theorem jsStringLt_irrefl : ∀ (a : List Char), jsStringLt a a = false := by
  intro a
  induction a with
  | nil => rfl
  | cons c t ih =>
    unfold jsStringLt
    simp [ih]

theorem jsStringLt_asymm :
    ∀ (a b : List Char), jsStringLt a b = true → jsStringLt b a = false := by
  intro a
  induction a with
  | nil =>
    intro b h
    cases b with
    | nil => rfl
    | cons y t => rfl
  | cons c s ih =>
    intro b h
    cases b with
    | nil => simp [jsStringLt] at h
    | cons y t =>
      unfold jsStringLt at h ⊢
      by_cases h1 : c.toNat < y.toNat
      · have h2 : ¬ y.toNat < c.toNat := by omega
        simp [h1, h2]
      · by_cases h2 : y.toNat < c.toNat
        · simp [h1, h2] at h
        · have h3 : jsStringLt s t = true := by simpa [h1, h2] using h
          simp [h1, h2, ih t h3]

/-- C3 amended: the future-date check works at calendar-day
granularity: for an instant with a nonempty date string it (and the
expense form's future-date flag computed from it) reports a future date
exactly when the date string is lexicographically greater than today's;
every instant it rejects is strictly after now; every instant strictly
before now — including now minus one second — is accepted, and so is
every instant on the current day, even one strictly after now; an
instant one day ahead (date string greater than today's) is rejected. -/
theorem future_check_day_granularity (t now : Instant)
    (h : t.date ≠ []) :
    (isFutureDate (some t.date) now.date = true ↔
      jsStringLt now.date t.date = true) ∧
    (isFutureDate (some t.date) now.date = true → instLt now t = true) ∧
    (instLt t now = true → isFutureDate (some t.date) now.date = false) ∧
    (t.date = now.date → isFutureDate (some t.date) now.date = false) ∧
    (∀ est : ExpenseFormState, est.incurred_date = t.date →
      ((validateExpense now.date est).2 = true ↔
        jsStringLt now.date t.date = true)) := by
  have hiff : isFutureDate (some t.date) now.date = true ↔
      jsStringLt now.date t.date = true := by
    simp [isFutureDate, h]
  refine ⟨hiff, ?_, ?_, ?_, ?_⟩
  · intro hf
    have hlt : jsStringLt now.date t.date = true := hiff.mp hf
    simp [instLt, hlt]
  · intro hlt
    have hne : isFutureDate (some t.date) now.date ≠ true := by
      intro hgt0
      have hgt : jsStringLt now.date t.date = true := hiff.mp hgt0
      rcases Bool.eq_false_or_eq_true (jsStringLt t.date now.date) with
        hd | hd
      · rw [jsStringLt_asymm t.date now.date hd] at hgt
        cases hgt
      · have heq : t.date = now.date := by
          simp only [instLt, Bool.or_eq_true, Bool.and_eq_true,
            beq_iff_eq] at hlt
          rcases hlt with hlt | hlt
          · rw [hlt] at hd; cases hd
          · exact hlt.1
        rw [heq, jsStringLt_irrefl] at hgt
        cases hgt
    simpa using hne
  · intro heq
    rw [heq] at hiff ⊢
    rcases Bool.eq_false_or_eq_true (isFutureDate (some now.date) now.date)
      with hf | hf
    · have hcon := hiff.mp hf
      rw [jsStringLt_irrefl] at hcon
      cases hcon
    · exact hf
  · intro est hest
    have h2 : (validateExpense now.date est).2 =
        (est.incurred_date ≠ [] &&
          isFutureDate (some est.incurred_date) now.date) := rfl
    rw [h2, hest]
    simp [isFutureDate, h]

/-- C3 witness: at now 2026-10-11 10:00, the instant 2026-10-12 10:00
(one day ahead) is rejected by the check and is strictly after now,
while now minus one second, 2026-10-11 09:59:59, is accepted. -/
theorem future_check_day_granularity_witness :
    isFutureDate (some "2026-10-12".toList) "2026-10-11".toList = true ∧
      instLt ⟨"2026-10-11".toList, "10:00".toList⟩
        ⟨"2026-10-12".toList, "10:00".toList⟩ = true ∧
      isFutureDate (some "2026-10-11".toList) "2026-10-11".toList = false := by
  have h1 := future_check_day_granularity
    ⟨"2026-10-12".toList, "10:00".toList⟩
    ⟨"2026-10-11".toList, "10:00".toList⟩ (by decide)
  have h2 := future_check_day_granularity
    ⟨"2026-10-11".toList, "09:59:59".toList⟩
    ⟨"2026-10-11".toList, "10:00:00".toList⟩ (by decide)
  exact ⟨h1.1.mpr (by decide), h1.2.1 (h1.1.mpr (by decide)),
    h2.2.2.1 (by decide)⟩

/-! ## C2 and C7: the form validators -/

theorem validateExpense_amount_none_iff (today : List Char)
    (est : ExpenseFormState) :
    (validateExpense today est).1.amount = none ↔
      ∃ v, jsNumber est.amount = some v ∧ jsTrim est.amount ≠ [] ∧
        jsNumLeZero v = false := by
  by_cases h1 : jsTrim est.amount = []
  · simp [validateExpense, h1]
  · cases hv : jsNumber est.amount with
    | none => simp [validateExpense, h1, hv]
    | some v =>
      by_cases hz : jsNumLeZero v = true
      · simp [validateExpense, h1, hv, hz]
      · have hz' : jsNumLeZero v = false := by simpa using hz
        simp [validateExpense, h1, hv, hz']

theorem validateIncome_amount_none_iff (today : List Char)
    (ist : IncomeFormState) :
    (validateIncome today ist).1.amount = none ↔
      ∃ v, jsNumber ist.amount = some v ∧ jsTrim ist.amount ≠ [] ∧
        jsNumLeZero v = false := by
  by_cases h1 : jsTrim ist.amount = []
  · simp [validateIncome, h1]
  · cases hv : jsNumber ist.amount with
    | none => simp [validateIncome, h1, hv]
    | some v =>
      by_cases hz : jsNumLeZero v = true
      · simp [validateIncome, h1, hv, hz]
      · have hz' : jsNumLeZero v = false := by simpa using hz
        simp [validateIncome, h1, hv, hz']

/-- C2: in both forms the amount passes validation exactly when it is
nonempty after trimming, converts to a non-NaN number and that number
is strictly positive; when it fails, the form is invalid and the record
is not submitted (handleSubmit returns before building the payload). -/
theorem validation_rejects_nonpositive_amounts (today : List Char)
    (est : ExpenseFormState) (ist : IncomeFormState) :
    ((validateExpense today est).1.amount = none ↔
      ∃ v, jsNumber est.amount = some v ∧ jsTrim est.amount ≠ [] ∧
        jsNumLeZero v = false) ∧
    ((validateExpense today est).1.amount.isSome = true →
      expenseFormValid (validateExpense today est).1 = false) ∧
    ((validateIncome today ist).1.amount = none ↔
      ∃ v, jsNumber ist.amount = some v ∧ jsTrim ist.amount ≠ [] ∧
        jsNumLeZero v = false) ∧
    ((validateIncome today ist).1.amount.isSome = true →
      incomeFormValid (validateIncome today ist).1 = false) := by
  refine ⟨validateExpense_amount_none_iff today est, ?_,
    validateIncome_amount_none_iff today ist, ?_⟩
  · intro h
    cases ho : (validateExpense today est).1.amount with
    | none => rw [ho] at h; simp at h
    | some m => simp [expenseFormValid, ho]
  · intro h
    cases ho : (validateIncome today ist).1.amount with
    | none => rw [ho] at h; simp at h
    | some m => simp [incomeFormValid, ho]

/-- C2 witness: amount 0 is rejected by the expense form (and blocks
submission) and amount -5.00 is rejected by the income form. -/
theorem validation_rejects_nonpositive_amounts_witness :
    (validateExpense []
      ⟨"0".toList, "USD".toList, "Food".toList, "cash".toList,
        "2026-01-01".toList, [], [], [], [], []⟩).1.amount.isSome = true ∧
    expenseFormValid (validateExpense []
      ⟨"0".toList, "USD".toList, "Food".toList, "cash".toList,
        "2026-01-01".toList, [], [], [], [], []⟩).1 = false ∧
    (validateIncome []
      ⟨"-5.00".toList, "USD".toList, "Job".toList, "salary".toList,
        "2026-01-01".toList, [], [], [], []⟩).1.amount.isSome = true := by
  have h := validation_rejects_nonpositive_amounts []
    ⟨"0".toList, "USD".toList, "Food".toList, "cash".toList,
      "2026-01-01".toList, [], [], [], [], []⟩
    ⟨"-5.00".toList, "USD".toList, "Job".toList, "salary".toList,
      "2026-01-01".toList, [], [], [], []⟩
  have he : (validateExpense []
      ⟨"0".toList, "USD".toList, "Food".toList, "cash".toList,
        "2026-01-01".toList, [], [], [], [], []⟩).1.amount ≠ none := by
    intro hn
    obtain ⟨v, hv, -, hz⟩ := h.1.mp hn
    rw [show jsNumber "0".toList = some (JsNum.fin 0 0) from by decide] at hv
    cases hv
    exact absurd hz (by decide)
  have hi : (validateIncome []
      ⟨"-5.00".toList, "USD".toList, "Job".toList, "salary".toList,
        "2026-01-01".toList, [], [], [], []⟩).1.amount ≠ none := by
    intro hn
    obtain ⟨v, hv, -, hz⟩ := h.2.2.1.mp hn
    rw [show jsNumber "-5.00".toList = some (JsNum.fin (-500) 2) from by decide]
      at hv
    cases hv
    exact absurd hz (by decide)
  refine ⟨Option.isSome_iff_ne_none.mpr he,
    h.2.1 (Option.isSome_iff_ne_none.mpr he),
    Option.isSome_iff_ne_none.mpr hi⟩

theorem validateExpense_amount_isSome_iff (today : List Char)
    (est : ExpenseFormState) :
    (validateExpense today est).1.amount.isSome = true ↔
      (jsTrim est.amount = [] ∨ jsNumber est.amount = none ∨
        ∃ v, jsNumber est.amount = some v ∧ jsNumLeZero v = true) := by
  by_cases h1 : jsTrim est.amount = []
  · simp [validateExpense, h1]
  · cases hv : jsNumber est.amount with
    | none => simp [validateExpense, h1, hv]
    | some v =>
      by_cases hz : jsNumLeZero v = true
      · simp [validateExpense, h1, hv, hz]
      · have hz' : jsNumLeZero v = false := by simpa using hz
        simp [validateExpense, h1, hv, hz']

theorem validateIncome_amount_isSome_iff (today : List Char)
    (ist : IncomeFormState) :
    (validateIncome today ist).1.amount.isSome = true ↔
      (jsTrim ist.amount = [] ∨ jsNumber ist.amount = none ∨
        ∃ v, jsNumber ist.amount = some v ∧ jsNumLeZero v = true) := by
  by_cases h1 : jsTrim ist.amount = []
  · simp [validateIncome, h1]
  · cases hv : jsNumber ist.amount with
    | none => simp [validateIncome, h1, hv]
    | some v =>
      by_cases hz : jsNumLeZero v = true
      · simp [validateIncome, h1, hv, hz]
      · have hz' : jsNumLeZero v = false := by simpa using hz
        simp [validateIncome, h1, hv, hz']

/-- C7: validation collects every violation instead of stopping at the
first: each field's error is present exactly when that field's own rule
is violated, independent of the other fields, in both forms — so any
candidate violating several rules at once gets one error per violated
field (and none on the fields that pass). -/
theorem validation_collects_all_violations (today : List Char)
    (est : ExpenseFormState) (ist : IncomeFormState) :
    ((validateExpense today est).1.amount.isSome = true ↔
      (jsTrim est.amount = [] ∨ jsNumber est.amount = none ∨
        ∃ v, jsNumber est.amount = some v ∧ jsNumLeZero v = true)) ∧
    ((validateExpense today est).1.category.isSome = true ↔
      jsTrim est.category = []) ∧
    ((validateExpense today est).1.payment_method.isSome = true ↔
      jsTrim est.payment_method = []) ∧
    ((validateExpense today est).1.incurred_date.isSome = true ↔
      (est.incurred_date = [] ∨
        isFutureDate (some est.incurred_date) today = true)) ∧
    ((validateIncome today ist).1.amount.isSome = true ↔
      (jsTrim ist.amount = [] ∨ jsNumber ist.amount = none ∨
        ∃ v, jsNumber ist.amount = some v ∧ jsNumLeZero v = true)) ∧
    ((validateIncome today ist).1.source.isSome = true ↔
      jsTrim ist.source = []) ∧
    ((validateIncome today ist).1.received_method.isSome = true ↔
      jsTrim ist.received_method = []) ∧
    ((validateIncome today ist).1.received_date.isSome = true ↔
      (ist.received_date = [] ∨
        isFutureDate (some ist.received_date) today = true)) := by
  refine ⟨validateExpense_amount_isSome_iff today est, ?_, ?_, ?_,
    validateIncome_amount_isSome_iff today ist, ?_, ?_, ?_⟩
  · by_cases hc : jsTrim est.category = [] <;> simp [validateExpense, hc]
  · by_cases hp : jsTrim est.payment_method = [] <;>
      simp [validateExpense, hp]
  · by_cases hd : est.incurred_date = []
    · simp [validateExpense, hd]
    · by_cases hf : isFutureDate (some est.incurred_date) today = true <;>
        simp [validateExpense, hd, hf]
  · by_cases hc : jsTrim ist.source = [] <;> simp [validateIncome, hc]
  · by_cases hp : jsTrim ist.received_method = [] <;>
      simp [validateIncome, hp]
  · by_cases hd : ist.received_date = []
    · simp [validateIncome, hd]
    · by_cases hf : isFutureDate (some ist.received_date) today = true <;>
        simp [validateIncome, hd, hf]

/-- C7 witness at the claim's own example: a candidate with a
non-positive amount, a missing category or source and a missing date —
but a valid payment or received method — gets exactly the three errors
of the violated fields and no error on the valid method field, in both
forms. -/
theorem validation_collects_all_violations_witness :
    (validateExpense []
      ⟨"-5.00".toList, "USD".toList, [], "cash".toList, [], [], [], [], [],
        []⟩).1.amount.isSome = true ∧
    (validateExpense []
      ⟨"-5.00".toList, "USD".toList, [], "cash".toList, [], [], [], [], [],
        []⟩).1.category.isSome = true ∧
    (validateExpense []
      ⟨"-5.00".toList, "USD".toList, [], "cash".toList, [], [], [], [], [],
        []⟩).1.payment_method.isSome = false ∧
    (validateExpense []
      ⟨"-5.00".toList, "USD".toList, [], "cash".toList, [], [], [], [], [],
        []⟩).1.incurred_date.isSome = true ∧
    (validateIncome []
      ⟨"0".toList, "USD".toList, [], "salary".toList, [], [], [], [],
        []⟩).1.amount.isSome = true ∧
    (validateIncome []
      ⟨"0".toList, "USD".toList, [], "salary".toList, [], [], [], [],
        []⟩).1.source.isSome = true ∧
    (validateIncome []
      ⟨"0".toList, "USD".toList, [], "salary".toList, [], [], [], [],
        []⟩).1.received_method.isSome = false ∧
    (validateIncome []
      ⟨"0".toList, "USD".toList, [], "salary".toList, [], [], [], [],
        []⟩).1.received_date.isSome = true := by
  have h := validation_collects_all_violations []
    ⟨"-5.00".toList, "USD".toList, [], "cash".toList, [], [], [], [], [], []⟩
    ⟨"0".toList, "USD".toList, [], "salary".toList, [], [], [], [], []⟩
  have hep : (validateExpense []
      ⟨"-5.00".toList, "USD".toList, [], "cash".toList, [], [], [], [], [],
        []⟩).1.payment_method.isSome = false :=
    Bool.eq_false_iff.mpr (fun hh => absurd (h.2.2.1.mp hh) (by decide))
  have hip : (validateIncome []
      ⟨"0".toList, "USD".toList, [], "salary".toList, [], [], [], [],
        []⟩).1.received_method.isSome = false :=
    Bool.eq_false_iff.mpr
      (fun hh => absurd (h.2.2.2.2.2.2.1.mp hh) (by decide))
  exact ⟨h.1.mpr (Or.inr (Or.inr ⟨JsNum.fin (-500) 2, by decide, by decide⟩)),
    h.2.1.mpr (by decide), hep,
    h.2.2.2.1.mpr (Or.inl (by decide)),
    h.2.2.2.2.1.mpr (Or.inr (Or.inr ⟨JsNum.fin 0 0, by decide, by decide⟩)),
    h.2.2.2.2.2.1.mpr (by decide), hip,
    h.2.2.2.2.2.2.2.mpr (Or.inl (by decide))⟩

/-! ## C4 and C5: the data hooks -/

/-- C4 counterexample: after a successful category create the held
items are the local merge of the previous snapshot with the POST
response and differ from what re-issuing the GET list (refresh) would
return, so the claim that every mutating call re-fetches fails on the
code for the category client operations. -/
theorem categories_mutation_no_refetch_cex :
    (categoriesCreate
        ⟨Except.ok ⟨"1".toList, "A".toList⟩,
          Except.ok ⟨"1".toList, "A".toList⟩,
          Except.ok (),
          Except.ok [⟨"1".toList, "A".toList⟩, ⟨"2".toList, "B".toList⟩]⟩
        ⟨[], none⟩).1.items = [⟨"1".toList, "A".toList⟩] ∧
      (categoriesRefresh
        ⟨Except.ok ⟨"1".toList, "A".toList⟩,
          Except.ok ⟨"1".toList, "A".toList⟩,
          Except.ok (),
          Except.ok [⟨"1".toList, "A".toList⟩, ⟨"2".toList, "B".toList⟩]⟩
        ⟨[], none⟩).items =
        [⟨"1".toList, "A".toList⟩, ⟨"2".toList, "B".toList⟩] ∧
      ([⟨"1".toList, "A".toList⟩] : List Category) ≠
        [⟨"1".toList, "A".toList⟩, ⟨"2".toList, "B".toList⟩] := by
  refine ⟨by decide, by decide, by decide⟩

/-- C4 amended: the expense and income hooks do follow the re-fetch
contract: after any successful create, update or remove the held items
and total are exactly the server's GET list response, independent of
the previously held snapshot; the category hook instead reconciles
locally (see the counterexample). -/
theorem expense_income_mutations_refetch
    (srvE : ListHookServer Expense) (srvI : ListHookServer Income)
    (stE : ListHookState Expense) (stI : ListHookState Income)
    (itemsE : List Expense) (totalE : List Char)
    (itemsI : List Income) (totalI : List Char)
    (hE : srvE.listResult = Except.ok (itemsE, totalE))
    (hI : srvI.listResult = Except.ok (itemsI, totalI)) :
    (srvE.postResult = Except.ok () →
      (expensesCreate srvE stE).1 = ⟨itemsE, totalE, none⟩) ∧
    (srvE.putResult = Except.ok () →
      (expensesUpdate srvE stE).1 = ⟨itemsE, totalE, none⟩) ∧
    (srvE.deleteResult = Except.ok () →
      (expensesRemove srvE stE).1 = ⟨itemsE, totalE, none⟩) ∧
    (srvI.postResult = Except.ok () →
      (incomesCreate srvI stI).1 = ⟨itemsI, totalI, none⟩) ∧
    (srvI.putResult = Except.ok () →
      (incomesUpdate srvI stI).1 = ⟨itemsI, totalI, none⟩) ∧
    (srvI.deleteResult = Except.ok () →
      (incomesRemove srvI stI).1 = ⟨itemsI, totalI, none⟩) := by
  refine ⟨fun h => ?_, fun h => ?_, fun h => ?_, fun h => ?_, fun h => ?_,
    fun h => ?_⟩
  · simp [expensesCreate, hookMutate, h, hookRefresh, hE]
  · simp [expensesUpdate, hookMutate, h, hookRefresh, hE]
  · simp [expensesRemove, hookMutate, h, hookRefresh, hE]
  · simp [incomesCreate, hookMutate, h, hookRefresh, hI]
  · simp [incomesUpdate, hookMutate, h, hookRefresh, hI]
  · simp [incomesRemove, hookMutate, h, hookRefresh, hI]

/-- C4 witness: a successful expense create and income remove against a
concrete server replace a stale prior snapshot with the GET response. -/
theorem expense_income_mutations_refetch_witness :
    (expensesCreate
        ⟨Except.ok (), Except.ok (), Except.ok (),
          Except.ok ([], "0.00".toList)⟩
        ⟨[], "9.99".toList, some "stale".toList⟩).1 =
      ⟨[], "0.00".toList, none⟩ ∧
    (incomesRemove
        ⟨Except.ok (), Except.ok (), Except.ok (),
          Except.ok ([], "0.00".toList)⟩
        ⟨[], "9.99".toList, some "stale".toList⟩).1 =
      ⟨[], "0.00".toList, none⟩ := by
  have h := expense_income_mutations_refetch
    ⟨Except.ok (), Except.ok (), Except.ok (), Except.ok ([], "0.00".toList)⟩
    ⟨Except.ok (), Except.ok (), Except.ok (), Except.ok ([], "0.00".toList)⟩
    ⟨[], "9.99".toList, some "stale".toList⟩
    ⟨[], "9.99".toList, some "stale".toList⟩
    [] "0.00".toList [] "0.00".toList rfl rfl
  exact ⟨h.1 rfl, h.2.2.2.2.2 rfl⟩

/-- C5: a failed mutation on the expense or income hook leaves the held
items and total exactly as before the call, records only the error
message, and re-throws the error to the caller. -/
theorem failed_mutation_preserves_state
    (srvE : ListHookServer Expense) (srvI : ListHookServer Income)
    (stE : ListHookState Expense) (stI : ListHookState Income)
    (e : ApiErr) :
    (srvE.postResult = Except.error e →
      (expensesCreate srvE stE).1.items = stE.items ∧
      (expensesCreate srvE stE).1.total = stE.total ∧
      (expensesCreate srvE stE).1.error = some (getApiErrorMessage e) ∧
      (expensesCreate srvE stE).2 = some e) ∧
    (srvE.putResult = Except.error e →
      (expensesUpdate srvE stE).1.items = stE.items ∧
      (expensesUpdate srvE stE).1.total = stE.total ∧
      (expensesUpdate srvE stE).1.error = some (getApiErrorMessage e) ∧
      (expensesUpdate srvE stE).2 = some e) ∧
    (srvE.deleteResult = Except.error e →
      (expensesRemove srvE stE).1.items = stE.items ∧
      (expensesRemove srvE stE).1.total = stE.total ∧
      (expensesRemove srvE stE).1.error = some (getApiErrorMessage e) ∧
      (expensesRemove srvE stE).2 = some e) ∧
    (srvI.postResult = Except.error e →
      (incomesCreate srvI stI).1.items = stI.items ∧
      (incomesCreate srvI stI).1.total = stI.total ∧
      (incomesCreate srvI stI).1.error = some (getApiErrorMessage e) ∧
      (incomesCreate srvI stI).2 = some e) ∧
    (srvI.putResult = Except.error e →
      (incomesUpdate srvI stI).1.items = stI.items ∧
      (incomesUpdate srvI stI).1.total = stI.total ∧
      (incomesUpdate srvI stI).1.error = some (getApiErrorMessage e) ∧
      (incomesUpdate srvI stI).2 = some e) ∧
    (srvI.deleteResult = Except.error e →
      (incomesRemove srvI stI).1.items = stI.items ∧
      (incomesRemove srvI stI).1.total = stI.total ∧
      (incomesRemove srvI stI).1.error = some (getApiErrorMessage e) ∧
      (incomesRemove srvI stI).2 = some e) := by
  refine ⟨fun h => ?_, fun h => ?_, fun h => ?_, fun h => ?_, fun h => ?_,
    fun h => ?_⟩
  · simp [expensesCreate, hookMutate, h]
  · simp [expensesUpdate, hookMutate, h]
  · simp [expensesRemove, hookMutate, h]
  · simp [incomesCreate, hookMutate, h]
  · simp [incomesUpdate, hookMutate, h]
  · simp [incomesRemove, hookMutate, h]

/-- C5 witness: a failing expense create against a concrete server
leaves the concrete prior items and total unchanged, sets the message
and re-throws. -/
theorem failed_mutation_preserves_state_witness :
    (expensesCreate
        ⟨Except.error ⟨some "Validation failed".toList, none, []⟩,
          Except.ok (), Except.ok (), Except.ok ([], "0.00".toList)⟩
        ⟨[], "9.99".toList, none⟩).1.items = [] ∧
    (expensesCreate
        ⟨Except.error ⟨some "Validation failed".toList, none, []⟩,
          Except.ok (), Except.ok (), Except.ok ([], "0.00".toList)⟩
        ⟨[], "9.99".toList, none⟩).1.total = "9.99".toList ∧
    (expensesCreate
        ⟨Except.error ⟨some "Validation failed".toList, none, []⟩,
          Except.ok (), Except.ok (), Except.ok ([], "0.00".toList)⟩
        ⟨[], "9.99".toList, none⟩).1.error =
      some (getApiErrorMessage ⟨some "Validation failed".toList, none, []⟩) ∧
    (expensesCreate
        ⟨Except.error ⟨some "Validation failed".toList, none, []⟩,
          Except.ok (), Except.ok (), Except.ok ([], "0.00".toList)⟩
        ⟨[], "9.99".toList, none⟩).2 =
      some ⟨some "Validation failed".toList, none, []⟩ := by
  have h := failed_mutation_preserves_state
    ⟨Except.error ⟨some "Validation failed".toList, none, []⟩,
      Except.ok (), Except.ok (), Except.ok ([], "0.00".toList)⟩
    ⟨Except.ok (), Except.ok (), Except.ok (), Except.ok ([], "0.00".toList)⟩
    ⟨[], "9.99".toList, none⟩
    ⟨[], "9.99".toList, none⟩
    ⟨some "Validation failed".toList, none, []⟩
  exact h.1 rfl

/-! ## C8: category ordering -/

theorem compareStrings_swap :
    ∀ (a b : List Char), compareStrings b a = (compareStrings a b).swap := by
  intro a
  induction a with
  | nil => intro b; cases b <;> rfl
  | cons x s ih =>
    intro b
    cases b with
    | nil => rfl
    | cons y t =>
      by_cases h1 : x.toNat < y.toNat
      · have h2 : ¬ y.toNat < x.toNat := by omega
        simp [compareStrings, h1, h2, Ordering.swap]
      · by_cases h2 : y.toNat < x.toNat
        · simp [compareStrings, h1, h2, Ordering.swap]
        · simp [compareStrings, h1, h2, ih t]

theorem catCmp_le_total (x y : Category) (h : ¬ catCmp x y ≤ 0) :
    catCmp y x ≤ 0 := by
  unfold catCmp localeCompareBase at h ⊢
  rw [compareStrings_swap]
  cases hc : compareStrings (x.name.map Char.toLower) (y.name.map Char.toLower)
    <;> rw [hc] at h <;> simp_all [Ordering.swap]

theorem sortInsert_head? (c : α → α → Int) (x : α) (l : List α) :
    (sortInsert c x l).head? = some x ∨ (sortInsert c x l).head? = l.head? := by
  cases l with
  | nil => exact Or.inl rfl
  | cons y ys =>
    unfold sortInsert
    by_cases h : c x y ≤ 0
    · rw [if_pos h]; exact Or.inl rfl
    · rw [if_neg h]; exact Or.inr rfl

theorem chain_sortInsert (x : Category) :
    ∀ (l : List Category),
      List.Chain' (fun a b => catCmp a b ≤ 0) l →
      List.Chain' (fun a b => catCmp a b ≤ 0) (sortInsert catCmp x l) := by
  intro l
  induction l with
  | nil => intro _; simp [sortInsert]
  | cons y ys ih =>
    intro h
    unfold sortInsert
    by_cases hxy : catCmp x y ≤ 0
    · rw [if_pos hxy]
      exact h.cons hxy
    · rw [if_neg hxy]
      rw [List.chain'_cons'] at h ⊢
      refine ⟨?_, ih h.2⟩
      intro z hz
      rcases sortInsert_head? catCmp x ys with hh | hh
      · rw [hh] at hz
        simp only [Option.mem_def, Option.some.injEq] at hz
        subst hz
        exact catCmp_le_total x y hxy
      · rw [hh] at hz
        exact h.1 z hz

theorem sortInsert_perm (c : α → α → Int) (x : α) :
    ∀ (l : List α), List.Perm (sortInsert c x l) (x :: l) := by
  intro l
  induction l with
  | nil => exact List.Perm.refl _
  | cons y ys ih =>
    unfold sortInsert
    by_cases h : c x y ≤ 0
    · rw [if_pos h]
    · rw [if_neg h]
      exact (ih.cons y).trans (List.Perm.swap x y ys)

theorem filter_sortInsert (p : Category → Bool)
    (hp : ∀ a b, p a = true → p b = true → catCmp a b = 0) (x : Category) :
    ∀ (l : List Category),
      (sortInsert catCmp x l).filter p = ((x :: l).filter p) := by
  intro l
  induction l with
  | nil => rfl
  | cons y ys ih =>
    unfold sortInsert
    by_cases hxy : catCmp x y ≤ 0
    · rw [if_pos hxy]
    · rw [if_neg hxy]
      by_cases hx : p x = true
      · have hy : p y = false := by
          rcases Bool.eq_false_or_eq_true (p y) with ht | hf
          · exact absurd (le_of_eq (hp x y hx ht)) hxy
          · exact hf
        simp only [List.filter_cons, hx, hy, if_true, if_false,
          Bool.false_eq_true] at ih ⊢
        rw [ih]
      · have hx' : p x = false := by simpa using hx
        simp only [List.filter_cons, hx', Bool.false_eq_true, if_false] at ih ⊢
        rw [ih]

/-- C8 counterexample: sorting the two categories with id 2 name a and
id 1 name A (names equal under different casing, identifier order 1
before 2) keeps the input order and puts id 2 first, so the claim that
equal names appear in order of their identifiers fails on the code. -/
theorem sort_categories_tiebreak_cex :
    sortCategories [⟨"2".toList, "a".toList⟩, ⟨"1".toList, "A".toList⟩] =
      [⟨"2".toList, "a".toList⟩, ⟨"1".toList, "A".toList⟩] ∧
      localeCompareBase "a".toList "A".toList = 0 ∧
      "a".toList ≠ "A".toList ∧
      jsStringLt "1".toList "2".toList = true := by
  refine ⟨by decide, by decide, by decide, by decide⟩

/-- C8 amended: the category listing is sorted case-insensitively by
name (adjacent pairs never compare strictly greater), is a permutation
of the input, and is stable: categories whose names are equal under the
base-sensitivity comparator appear in the order they occurred in the
input list, not in identifier order. -/
theorem sort_categories_ordered_stable (l : List Category) :
    List.Chain' (fun a b => catCmp a b ≤ 0) (sortCategories l) ∧
    List.Perm (sortCategories l) l ∧
    ∀ (p : Category → Bool),
      (∀ a b, p a = true → p b = true → catCmp a b = 0) →
        (sortCategories l).filter p = l.filter p := by
  induction l with
  | nil => exact ⟨List.chain'_nil, List.Perm.refl _, fun p _ => rfl⟩
  | cons x xs ih =>
    refine ⟨chain_sortInsert x _ ih.1, ?_, ?_⟩
    · exact (sortInsert_perm catCmp x _).trans (ih.2.1.cons x)
    · intro p hp
      have ih2 : List.filter p (stableSort catCmp xs) = List.filter p xs :=
        ih.2.2 p hp
      show (sortInsert catCmp x (stableSort catCmp xs)).filter p = _
      rw [filter_sortInsert p hp x, List.filter_cons, List.filter_cons, ih2]

/-- C8 witness: on the concrete two-element tie the sorted output is
ordered, and the elements whose lowercased name is the letter a (both
of them) keep their input order. -/
theorem sort_categories_ordered_stable_witness :
    (sortCategories
        [⟨"2".toList, "a".toList⟩, ⟨"1".toList, "A".toList⟩]).filter
        (fun z => z.name.map Char.toLower == "a".toList) =
      ([⟨"2".toList, "a".toList⟩, ⟨"1".toList, "A".toList⟩] :
          List Category).filter
        (fun z => z.name.map Char.toLower == "a".toList) ∧
    List.Chain' (fun a b => catCmp a b ≤ 0)
      (sortCategories [⟨"2".toList, "a".toList⟩, ⟨"1".toList, "A".toList⟩]) := by
  have h := sort_categories_ordered_stable
    [⟨"2".toList, "a".toList⟩, ⟨"1".toList, "A".toList⟩]
  refine ⟨h.2.2 _ ?_, h.1⟩
  intro a b ha hb
  have ha' : a.name.map Char.toLower = "a".toList := by simpa using ha
  have hb' : b.name.map Char.toLower = "a".toList := by simpa using hb
  unfold catCmp localeCompareBase
  rw [ha', hb']
  decide

/-! ## C10: date and time composition -/

/-- C10: date-and-time composition is total: the result is always the
ISO rendering of some instant; a nonempty date composed with the
defaulted time renders the parsed instant when the composition parses
and falls back to now when it does not; an empty date falls back to
now; a missing or blank time defaults to 00:00; toIsoString renders the
parsed input and falls back to now on unparseable or absent input. -/
theorem combine_date_time_total_fallback
    (parse : List Char → Option Int) (isoOf : Int → List Char) (now : Int)
    (date : List Char) (time : Option (List Char))
    (v : Option (List Char)) (d : Int) :
    (∃ t, combineDateAndTime parse isoOf now date time = isoOf t) ∧
    (date = [] → combineDateAndTime parse isoOf now date time = isoOf now) ∧
    (parse (date ++ 'T' :: safeTimeOf time) = some d → date ≠ [] →
      combineDateAndTime parse isoOf now date time = isoOf d) ∧
    (parse (date ++ 'T' :: safeTimeOf time) = none → date ≠ [] →
      combineDateAndTime parse isoOf now date time = isoOf now) ∧
    ((time = none ∨ (∃ t0, time = some t0 ∧ jsTrim t0 = [])) →
      safeTimeOf time = "00:00".toList) ∧
    (∃ t, toIsoString parse isoOf now v = isoOf t) ∧
    (toDate parse v = some d → toIsoString parse isoOf now v = isoOf d) ∧
    (toDate parse v = none → toIsoString parse isoOf now v = isoOf now) := by
  refine ⟨?_, ?_, ?_, ?_, ?_, ?_, ?_, ?_⟩
  · by_cases hd : date = []
    · exact ⟨now, by simp [combineDateAndTime, hd]⟩
    · cases hp : parse (date ++ 'T' :: safeTimeOf time) with
      | none => exact ⟨now, by simp [combineDateAndTime, hd, hp]⟩
      | some w => exact ⟨w, by simp [combineDateAndTime, hd, hp]⟩
  · intro hd
    simp [combineDateAndTime, hd]
  · intro hp hd
    simp [combineDateAndTime, hd, hp]
  · intro hp hd
    simp [combineDateAndTime, hd, hp]
  · intro h
    rcases h with h | ⟨t0, ht, htr⟩
    · rw [h]; rfl
    · simp [safeTimeOf, ht, htr]
  · cases hv : toDate parse v with
    | none => exact ⟨now, by simp [toIsoString, hv]⟩
    | some w => exact ⟨w, by simp [toIsoString, hv]⟩
  · intro hv
    simp [toIsoString, hv]
  · intro hv
    simp [toIsoString, hv]

/-- C10 witness at a concrete parser: the composition of the date
2026-01-02 with a missing time parses as the concrete instant 42 and is
rendered, and toIsoString of an absent value falls back to now. -/
theorem combine_date_time_total_fallback_witness :
    combineDateAndTime
        (fun s => if s = "2026-01-02T00:00".toList then some 42 else none)
        (fun n => if n = 42 then "iso42".toList else "isonow".toList)
        0 "2026-01-02".toList none = "iso42".toList ∧
      toIsoString
        (fun s => if s = "2026-01-02T00:00".toList then some 42 else none)
        (fun n => if n = 42 then "iso42".toList else "isonow".toList)
        0 none = "isonow".toList := by
  have h := combine_date_time_total_fallback
    (fun s => if s = "2026-01-02T00:00".toList then some 42 else none)
    (fun n => if n = 42 then "iso42".toList else "isonow".toList)
    0 "2026-01-02".toList none none 42
  constructor
  · have hc := h.2.2.1 (by decide) (by decide)
    rw [hc]
    decide
  · have ht := h.2.2.2.2.2.2.2 (by decide)
    rw [ht]
    decide

/-! ## Character facts for the sanitizer proofs -/

theorem isWs_cases {c : Char} (h : isWs c = true) :
    c = ' ' ∨ c = '\t' ∨ c = '\r' ∨ c = '\n' := by
  unfold isWs Char.isWhitespace at h
  simp only [Bool.or_eq_true, decide_eq_true_eq] at h
  tauto

theorem isWs_not_digit {c : Char} (h : isWs c = true) : c.isDigit = false := by
  rcases isWs_cases h with h | h | h | h <;> subst h <;> decide

theorem isWs_ne_dot {c : Char} (h : isWs c = true) : c ≠ '.' := by
  rcases isWs_cases h with h | h | h | h <;> subst h <;> decide

theorem allowed_not_ws {c : Char} (h : isAllowedAmountChar c = true) :
    isWs c = false := by
  by_cases hw : isWs c = true
  · exfalso
    simp only [isAllowedAmountChar, Bool.or_eq_true, beq_iff_eq] at h
    rcases h with h | h
    · rw [isWs_not_digit hw] at h
      cases h
    · exact isWs_ne_dot hw h
  · simpa using hw

theorem digit_ne_dot {c : Char} (h : c.isDigit = true) : c ≠ '.' := by
  intro he
  subst he
  exact absurd h (by decide)

theorem digit_allowed {c : Char} (h : c.isDigit = true) :
    isAllowedAmountChar c = true := by
  simp [isAllowedAmountChar, h]

/-! ## Structure of the sanitizer output -/

theorem stripLeadingZeros_cons_true {a : Char} {rest : List Char}
    (h : (a = '0' && headIsDigit rest) = true) :
    stripLeadingZeros (a :: rest) = stripLeadingZeros rest := by
  simp [stripLeadingZeros, h]

theorem stripLeadingZeros_cons_false {a : Char} {rest : List Char}
    (h : (a = '0' && headIsDigit rest) = false) :
    stripLeadingZeros (a :: rest) = a :: rest := by
  simp [stripLeadingZeros, h]

theorem stripLeadingZeros_subset :
    ∀ {l : List Char} {c : Char}, c ∈ stripLeadingZeros l → c ∈ l := by
  intro l
  induction l with
  | nil => intro c h; simp [stripLeadingZeros] at h
  | cons a rest ih =>
    intro c h
    by_cases hc : (a = '0' && headIsDigit rest) = true
    · rw [stripLeadingZeros_cons_true hc] at h
      exact List.mem_cons_of_mem a (ih h)
    · rw [stripLeadingZeros_cons_false (by simpa using hc)] at h
      exact h

theorem stripLeadingZeros_ne_nil :
    ∀ {l : List Char}, l ≠ [] → stripLeadingZeros l ≠ [] := by
  intro l
  induction l with
  | nil => intro h; exact absurd rfl h
  | cons a rest ih =>
    intro _
    by_cases hc : (a = '0' && headIsDigit rest) = true
    · rw [stripLeadingZeros_cons_true hc]
      apply ih
      intro hr
      rw [hr] at hc
      simp [headIsDigit] at hc
    · rw [stripLeadingZeros_cons_false (by simpa using hc)]
      simp

theorem stripLeadingZeros_idem :
    ∀ (l : List Char),
      stripLeadingZeros (stripLeadingZeros l) = stripLeadingZeros l := by
  intro l
  induction l with
  | nil => rfl
  | cons a rest ih =>
    by_cases hc : (a = '0' && headIsDigit rest) = true
    · rw [stripLeadingZeros_cons_true hc, ih]
    · rw [stripLeadingZeros_cons_false (by simpa using hc),
        stripLeadingZeros_cons_false (by simpa using hc)]

theorem mem_allowedOf {t : List Char} {c : Char} (h : c ∈ allowedOf t) :
    isAllowedAmountChar c = true :=
  (List.mem_filter.mp h).2

theorem wholeOf_digits {t : List Char} {c : Char} (h : c ∈ wholeOf t) :
    c.isDigit = true := by
  have h1 : c ≠ '.' := by
    have := List.mem_takeWhile_imp h
    simpa using this
  have h2 : c ∈ allowedOf t := List.takeWhile_subset _ h
  have h3 := mem_allowedOf h2
  simp only [isAllowedAmountChar, Bool.or_eq_true, beq_iff_eq] at h3
  rcases h3 with h3 | h3
  · exact h3
  · exact absurd h3 h1

theorem decimalsOf_digits {t : List Char} {c : Char} (h : c ∈ decimalsOf t) :
    c.isDigit = true := by
  unfold decimalsOf at h
  have h1 := List.take_subset _ _ h
  have h2 := List.mem_filter.mp h1
  have hne : c ≠ '.' := by simpa using h2.2
  have h3 : c ∈ allowedOf t :=
    List.dropWhile_subset _ (List.drop_subset _ _ h2.1)
  have h4 := mem_allowedOf h3
  simp only [isAllowedAmountChar, Bool.or_eq_true, beq_iff_eq] at h4
  rcases h4 with h4 | h4
  · exact h4
  · exact absurd h4 hne

theorem decimalsOf_length_le (t : List Char) : (decimalsOf t).length ≤ 2 := by
  unfold decimalsOf
  rw [List.length_take]
  exact Nat.min_le_left 2 _

theorem safeWholeOf_digits {t : List Char} {c : Char}
    (h : c ∈ safeWholeOf t) : c.isDigit = true := by
  unfold safeWholeOf at h
  split at h
  · exact wholeOf_digits (stripLeadingZeros_subset h)
  · split at h
    · simp only [List.mem_singleton] at h
      subst h
      decide
    · exact wholeOf_digits h

theorem sanitizeCore_all_allowed {t : List Char} {c : Char}
    (h : c ∈ sanitizeCore t) : isAllowedAmountChar c = true := by
  unfold sanitizeCore at h
  split at h
  · simp at h
  · split at h
    · rcases List.mem_append.mp h with h | h
      · exact digit_allowed (safeWholeOf_digits h)
      · rcases List.mem_cons.mp h with h | h
        · subst h; decide
        · exact digit_allowed (decimalsOf_digits h)
    · exact digit_allowed (safeWholeOf_digits h)

theorem takeWhile_ne_dot_append {w : List Char} (rest : List Char)
    (hw : ∀ c ∈ w, c ≠ '.') :
    (w ++ '.' :: rest).takeWhile (fun c => c ≠ '.') = w := by
  induction w with
  | nil => simp [List.takeWhile_cons]
  | cons a t ih =>
    have ha : a ≠ '.' := hw a (List.mem_cons_self a t)
    have ih2 := ih (fun c hc => hw c (List.mem_cons_of_mem a hc))
    simp only [decide_not] at ih2
    simp [List.cons_append, List.takeWhile_cons, ha, ih2]

theorem dropWhile_ne_dot_append {w : List Char} (rest : List Char)
    (hw : ∀ c ∈ w, c ≠ '.') :
    (w ++ '.' :: rest).dropWhile (fun c => c ≠ '.') = '.' :: rest := by
  induction w with
  | nil => simp [List.dropWhile_cons]
  | cons a t ih =>
    have ha : a ≠ '.' := hw a (List.mem_cons_self a t)
    have ih2 := ih (fun c hc => hw c (List.mem_cons_of_mem a hc))
    simp only [decide_not] at ih2
    simp [List.cons_append, List.dropWhile_cons, ha, ih2]

theorem takeWhile_ne_dot_all {l : List Char} (h : ∀ c ∈ l, c ≠ '.') :
    l.takeWhile (fun c => c ≠ '.') = l :=
  List.takeWhile_eq_self_iff.mpr (fun c hc => by simpa using h c hc)

theorem dropWhile_ne_dot_all {l : List Char} (h : ∀ c ∈ l, c ≠ '.') :
    l.dropWhile (fun c => c ≠ '.') = [] :=
  List.dropWhile_eq_nil_iff.mpr (fun c hc => by simpa using h c hc)

/-- The fractional part of a string: the characters after its first
dot (empty when there is no dot). -/
def fracPart (s : List Char) : List Char :=
  (s.dropWhile (fun c => c ≠ '.')).drop 1

/-- The fractional digits of an input string as the claim reads them:
the digit characters appearing after the first dot. -/
def fracDigitsOfInput (s : List Char) : List Char :=
  (fracPart s).filter Char.isDigit

theorem fracPart_cons_dot (x : List Char) : fracPart ('.' :: x) = x := by
  simp [fracPart, List.dropWhile_cons]

theorem fracPart_cons_ne {a : Char} (h : a ≠ '.') (x : List Char) :
    fracPart (a :: x) = fracPart x := by
  simp [fracPart, List.dropWhile_cons, h]

theorem allowed_filter_ne_dot (rest : List Char) :
    (allowedOf rest).filter (fun c => c ≠ '.') = rest.filter Char.isDigit := by
  unfold allowedOf
  rw [List.filter_filter]
  apply List.filter_congr
  intro c _
  by_cases h : c = '.'
  · subst h; decide
  · simp [isAllowedAmountChar, h]

theorem decimals_filter_eq : ∀ (t : List Char),
    (fracPart (allowedOf t)).filter (fun c => c ≠ '.') =
      (fracPart t).filter Char.isDigit := by
  intro t
  induction t with
  | nil => rfl
  | cons a rest ih =>
    by_cases ha : a = '.'
    · subst ha
      have h1 : allowedOf ('.' :: rest) = '.' :: allowedOf rest :=
        List.filter_cons_of_pos (by decide)
      rw [h1, fracPart_cons_dot, fracPart_cons_dot]
      exact allowed_filter_ne_dot rest
    · by_cases hq : isAllowedAmountChar a = true
      · have h1 : allowedOf (a :: rest) = a :: allowedOf rest :=
          List.filter_cons_of_pos hq
        rw [h1, fracPart_cons_ne ha, fracPart_cons_ne ha]
        exact ih
      · have h1 : allowedOf (a :: rest) = allowedOf rest :=
          List.filter_cons_of_neg (by simpa using hq)
        rw [h1, fracPart_cons_ne ha]
        exact ih

theorem dropWhile_dot_ws_append {w : List Char} (t : List Char)
    (hw : ∀ c ∈ w, isWs c = true) :
    (w ++ t).dropWhile (fun c => c ≠ '.') =
      t.dropWhile (fun c => c ≠ '.') := by
  induction w with
  | nil => rfl
  | cons a u ih =>
    have ha : a ≠ '.' := isWs_ne_dot (hw a (List.mem_cons_self a u))
    have ih2 := ih (fun c hc => hw c (List.mem_cons_of_mem a hc))
    simp only [decide_not] at ih2
    simp [List.cons_append, List.dropWhile_cons, ha, ih2]

theorem fracDigits_ws_suffix : ∀ (m u : List Char),
    (∀ c ∈ u, isWs c = true) →
      (fracPart (m ++ u)).filter Char.isDigit =
        (fracPart m).filter Char.isDigit := by
  intro m
  induction m with
  | nil =>
    intro u hu
    show (fracPart u).filter Char.isDigit = _
    unfold fracPart
    rw [dropWhile_ne_dot_all (fun c hc => isWs_ne_dot (hu c hc))]
    rfl
  | cons a m ih =>
    intro u hu
    by_cases ha : a = '.'
    · subst ha
      rw [List.cons_append, fracPart_cons_dot, fracPart_cons_dot,
        List.filter_append]
      have h2 : u.filter Char.isDigit = [] :=
        List.filter_eq_nil_iff.mpr
          (fun c hc => by simp [isWs_not_digit (hu c hc)])
      rw [h2, List.append_nil]
    · rw [List.cons_append, fracPart_cons_ne ha, fracPart_cons_ne ha]
      exact ih u hu

theorem trim_decomp (s : List Char) :
    ∃ w u, (∀ c ∈ w, isWs c = true) ∧ (∀ c ∈ u, isWs c = true) ∧
      s = w ++ (jsTrim s ++ u) := by
  refine ⟨s.takeWhile isWs,
    ((s.dropWhile isWs).reverse.takeWhile isWs).reverse,
    fun c hc => List.mem_takeWhile_imp hc,
    fun c hc => List.mem_takeWhile_imp (List.mem_reverse.mp hc), ?_⟩
  have h2 : s.dropWhile isWs =
      jsTrim s ++ ((s.dropWhile isWs).reverse.takeWhile isWs).reverse := by
    conv_lhs => rw [← List.reverse_reverse (s.dropWhile isWs),
      ← List.takeWhile_append_dropWhile isWs (s.dropWhile isWs).reverse,
      List.reverse_append]
    rfl
  rw [← h2, List.takeWhile_append_dropWhile]

theorem fracDigits_trim (s : List Char) :
    (fracPart (jsTrim s)).filter Char.isDigit =
      (fracPart s).filter Char.isDigit := by
  obtain ⟨w, u, hw, hu, hs⟩ := trim_decomp s
  conv_rhs => rw [hs]
  have h1 : fracPart (w ++ (jsTrim s ++ u)) = fracPart (jsTrim s ++ u) := by
    unfold fracPart
    rw [dropWhile_dot_ws_append _ hw]
  rw [h1, fracDigits_ws_suffix (jsTrim s) u hu]

theorem safeWholeOf_ne_dot {t : List Char} {c : Char}
    (h : c ∈ safeWholeOf t) : c ≠ '.' :=
  digit_ne_dot (safeWholeOf_digits h)

theorem fracPart_sanitizeCore (t : List Char) :
    fracPart (sanitizeCore t) = decimalsOf t := by
  unfold sanitizeCore
  split
  · next hA =>
    have hD : decimalsOf t = [] := by
      unfold decimalsOf
      rw [hA]
      rfl
    rw [hD]
    rfl
  · split
    · unfold fracPart
      rw [dropWhile_ne_dot_append _ (fun c hc => safeWholeOf_ne_dot hc)]
      rfl
    · next hD =>
      have hD' : decimalsOf t = [] := by simpa using hD
      unfold fracPart
      rw [dropWhile_ne_dot_all (fun c hc => safeWholeOf_ne_dot hc)]
      rw [hD']
      rfl

theorem sanitizeAmountInput_eq (s : List Char) :
    sanitizeAmountInput s = sanitizeCore (jsTrim s) := by
  unfold sanitizeAmountInput sanitizeDecimal
  by_cases hs : s = []
  · subst hs
    rfl
  · rw [if_neg hs]
    by_cases hc : sanitizeCore (jsTrim s) = []
    · simp [hc]
    · simp [hc]

/-- C1: amount normalization keeps only digits and the dot, and
truncates rather than rounds: the fractional part of the sanitized
amount is exactly the first two fractional digits of the input (the
digit characters after the input's first dot), with any further
fractional digits dropped. -/
theorem sanitizeAmount_truncates_fraction (s : List Char) :
    fracPart (sanitizeAmountInput s) = (fracDigitsOfInput s).take 2 ∧
      (sanitizeAmountInput s).all isAllowedAmountChar = true := by
  constructor
  · rw [sanitizeAmountInput_eq, fracPart_sanitizeCore]
    have h1 : decimalsOf (jsTrim s) =
        ((fracPart (allowedOf (jsTrim s))).filter
          (fun c => c ≠ '.')).take 2 := rfl
    rw [h1, decimals_filter_eq, fracDigits_trim]
    rfl
  · rw [sanitizeAmountInput_eq, List.all_eq_true]
    exact fun c hc => sanitizeCore_all_allowed hc

/-! ## Idempotence of amount sanitization -/

theorem jsTrim_sanitizeCore (t : List Char) :
    jsTrim (sanitizeCore t) = sanitizeCore t :=
  jsTrim_of_not_ws (fun _ hc => allowed_not_ws (sanitizeCore_all_allowed hc))

theorem safeWholeOf_strip_fixed {t : List Char} (h : safeWholeOf t ≠ []) :
    stripLeadingZeros (safeWholeOf t) = safeWholeOf t := by
  unfold safeWholeOf at h ⊢
  by_cases h1 : stripLeadingZeros (wholeOf t) ≠ []
  · rw [if_pos h1]
    exact stripLeadingZeros_idem (wholeOf t)
  · rw [if_neg h1] at h ⊢
    by_cases h2 : decimalsOf t ≠ []
    · rw [if_pos h2]
      decide
    · rw [if_neg h2] at h ⊢
      exact absurd (not_not.mp h1) (stripLeadingZeros_ne_nil h)

theorem safeWholeOf_ne_nil_of_decimals {t : List Char}
    (hD : decimalsOf t ≠ []) : safeWholeOf t ≠ [] := by
  unfold safeWholeOf
  by_cases h1 : stripLeadingZeros (wholeOf t) ≠ []
  · rw [if_pos h1]
    exact h1
  · rw [if_neg h1, if_pos hD]
    simp

theorem sanitizeCore_digits {l : List Char} (hne : l ≠ [])
    (hd : ∀ c ∈ l, c.isDigit = true) (hfix : stripLeadingZeros l = l) :
    sanitizeCore l = l := by
  have hnd : ∀ c ∈ l, c ≠ '.' := fun c hc => digit_ne_dot (hd c hc)
  have hA : allowedOf l = l :=
    List.filter_eq_self.mpr (fun c hc => digit_allowed (hd c hc))
  have hD : decimalsOf l = [] := by
    unfold decimalsOf
    rw [hA, dropWhile_ne_dot_all hnd]
    rfl
  have hW : wholeOf l = l := by
    unfold wholeOf
    rw [hA]
    exact takeWhile_ne_dot_all hnd
  have h1 : sanitizeCore l = safeWholeOf l := by
    unfold sanitizeCore
    rw [hA, if_neg hne, hD]
    simp
  rw [h1]
  unfold safeWholeOf
  rw [hW, hfix, if_pos hne]

theorem sanitizeCore_dotted {w d : List Char}
    (hWd : ∀ c ∈ w, c.isDigit = true) (hWne : w ≠ [])
    (hWfix : stripLeadingZeros w = w)
    (hDd : ∀ c ∈ d, c.isDigit = true) (hDne : d ≠ []) (hDlen : d.length ≤ 2) :
    sanitizeCore (w ++ '.' :: d) = w ++ '.' :: d := by
  have hWnd : ∀ c ∈ w, c ≠ '.' := fun c hc => digit_ne_dot (hWd c hc)
  have hall : ∀ c ∈ w ++ '.' :: d, isAllowedAmountChar c = true := by
    intro c hc
    rcases List.mem_append.mp hc with h | h
    · exact digit_allowed (hWd c h)
    · rcases List.mem_cons.mp h with h | h
      · subst h; decide
      · exact digit_allowed (hDd c h)
  have hA : allowedOf (w ++ '.' :: d) = w ++ '.' :: d :=
    List.filter_eq_self.mpr hall
  have hAne : w ++ '.' :: d ≠ [] := by simp
  have hwhole : wholeOf (w ++ '.' :: d) = w := by
    unfold wholeOf
    rw [hA]
    exact takeWhile_ne_dot_append d hWnd
  have hdec : decimalsOf (w ++ '.' :: d) = d := by
    unfold decimalsOf
    rw [hA, dropWhile_ne_dot_append d hWnd]
    have h1 : (('.' :: d).drop 1) = d := rfl
    rw [h1,
      List.filter_eq_self.mpr
        (fun c hc => by simpa using digit_ne_dot (hDd c hc))]
    exact List.take_of_length_le hDlen
  have hsafe : safeWholeOf (w ++ '.' :: d) = w := by
    unfold safeWholeOf
    rw [hwhole, hWfix, if_pos hWne]
  unfold sanitizeCore
  rw [hA, if_neg hAne, hdec, if_pos hDne, hsafe]

theorem sanitizeCore_idem (t : List Char) :
    sanitizeCore (sanitizeCore t) = sanitizeCore t := by
  by_cases hA : allowedOf t = []
  · have h0 : sanitizeCore t = [] := by
      unfold sanitizeCore
      rw [if_pos hA]
    rw [h0]
    rfl
  · by_cases hD : decimalsOf t ≠ []
    · have hu : sanitizeCore t = safeWholeOf t ++ '.' :: decimalsOf t := by
        unfold sanitizeCore
        rw [if_neg hA, if_pos hD]
      have hWne : safeWholeOf t ≠ [] := safeWholeOf_ne_nil_of_decimals hD
      rw [hu]
      exact sanitizeCore_dotted (fun c hc => safeWholeOf_digits hc) hWne
        (safeWholeOf_strip_fixed hWne) (fun c hc => decimalsOf_digits hc)
        hD (decimalsOf_length_le t)
    · have hD' : decimalsOf t = [] := not_not.mp hD
      have hu : sanitizeCore t = safeWholeOf t := by
        unfold sanitizeCore
        rw [if_neg hA, hD']
        simp
      by_cases hW : safeWholeOf t = []
      · rw [hu, hW]
        rfl
      · rw [hu]
        exact sanitizeCore_digits hW (fun c hc => safeWholeOf_digits hc)
          (safeWholeOf_strip_fixed hW)

/-- C9: amount sanitization is idempotent: re-sanitizing an already
sanitized amount, as happens on every keystroke and when a stored
amount is loaded into the edit form, never changes it. -/
theorem sanitizeAmount_idempotent (s : List Char) :
    sanitizeAmountInput (sanitizeAmountInput s) = sanitizeAmountInput s := by
  rw [sanitizeAmountInput_eq s,
    sanitizeAmountInput_eq (sanitizeCore (jsTrim s)), jsTrim_sanitizeCore,
    sanitizeCore_idem]
